import Mathlib

/-
A verification development for the `stjomd/raytracer` repository.

The core rendering pipeline is shallowly embedded in Lean 4:
* `f64` scalars are modelled as real numbers (`ℝ`); the transcendental
  operations of the source (`sqrt`, `tan`, `powf`) become `Real.sqrt`,
  `Real.tan`, `Real.rpow`.
* `f64::INFINITY`, which occurs as an interval endpoint (`Interval::from`),
  is modelled by using `EReal` for interval endpoints.
* calls to the global RNG (`rand::random_range`, `Vec3::random_unit`,
  `Vec3::random_in_unit_disk`) are modelled by passing the drawn values as
  explicit oracle arguments.
* the PPM encoder is additionally modelled over an extended value type `F64`
  with NaN and signed infinities, following IEEE-754 semantics for `powf`,
  `clamp` and the saturating `as u8` cast, because the encoder claims talk
  about non-finite channel values.
Rust `bool`-producing float comparisons become `Prop`s decided classically.
-/

set_option maxHeartbeats 1000000

noncomputable section
open Classical

namespace Raytracer

/-- Model of `Vec3` (`src/core/types/vector/vec3.rs`): a triple of `f64`,
here a triple of reals.  The Rust tuple fields `.0 .1 .2` are named after the
getters `x() y() z()`. -/
structure Vec3 where
  x : ℝ
  y : ℝ
  z : ℝ

instance : Add Vec3 := ⟨fun a b => ⟨a.x + b.x, a.y + b.y, a.z + b.z⟩⟩
instance : Sub Vec3 := ⟨fun a b => ⟨a.x - b.x, a.y - b.y, a.z - b.z⟩⟩
instance : Neg Vec3 := ⟨fun a => ⟨-a.x, -a.y, -a.z⟩⟩
instance : Mul Vec3 := ⟨fun a b => ⟨a.x * b.x, a.y * b.y, a.z * b.z⟩⟩

/-- Rust `Vec3::zero`. -/
def Vec3.zero : Vec3 := ⟨0, 0, 0⟩

/-- Rust `Vec3::scale`: scaling by a scalar (`self * f`). -/
def Vec3.scale (v : Vec3) (k : ℝ) : Vec3 := ⟨k * v.x, k * v.y, k * v.z⟩

/-- Scalar division `impl Div<f64> for Vec3`. -/
def Vec3.divs (v : Vec3) (k : ℝ) : Vec3 := ⟨v.x / k, v.y / k, v.z / k⟩

/-- Rust `Vec3::dot`. -/
def Vec3.dot (a b : Vec3) : ℝ := a.x * b.x + a.y * b.y + a.z * b.z

/-- Rust `Vec3::cross`. -/
def Vec3.cross (a b : Vec3) : Vec3 :=
  ⟨a.y * b.z - a.z * b.y, a.z * b.x - a.x * b.z, a.x * b.y - a.y * b.x⟩

/-- Rust `Vec3::norm_sq`. -/
def Vec3.norm_sq (v : Vec3) : ℝ := v.x * v.x + v.y * v.y + v.z * v.z

/-- Rust `Vec3::norm`. -/
def Vec3.norm (v : Vec3) : ℝ := Real.sqrt v.norm_sq

/-- Rust `Vec3::unit`: division by the norm (NaN for the zero vector in Rust;
here `Real.sqrt 0 = 0` and division by zero yields the zero vector). -/
def Vec3.unit (v : Vec3) : Vec3 := v.divs v.norm

/-- Rust `Vec3::is_near_zero`: every component smaller than `1e-8` in absolute
value. -/
def Vec3.is_near_zero (v : Vec3) : Prop :=
  |v.x| < 1e-8 ∧ |v.y| < 1e-8 ∧ |v.z| < 1e-8

/-- Rust `Point` is semantically a `Vec3` (the Rust newtype converts to and from
`Vec3` losslessly), so it is modelled by `Vec3` itself. -/
abbrev Point := Vec3

/-- Rust `Color` is semantically a `Vec3`; channels r,g,b are the x,y,z fields. -/
abbrev Color := Vec3

/-- Rust `Color::black`. -/
def Color.black : Color := ⟨0, 0, 0⟩

/-- Model of `Ray` (`src/core/types/ray.rs`). -/
structure Ray where
  origin : Point
  direction : Vec3
  attenuation : Color

/-- Rust `Ray::new`: full transmission attenuation `(1,1,1)`. -/
def Ray.new (o : Point) (d : Vec3) : Ray := ⟨o, d, ⟨1, 1, 1⟩⟩

/-- Rust `Ray::newc`. -/
def Ray.newc (o : Point) (d : Vec3) (c : Color) : Ray := ⟨o, d, c⟩

/-- Rust `Ray::at`. -/
def Ray.at (r : Ray) (t : ℝ) : Point := r.origin + r.direction.scale t

/-- Model of `Interval` (`src/core/types/interval.rs`).  Endpoints are
`EReal` so that `f64::INFINITY` (used by `Interval::from`) is representable.
The Rust field `end` is a Lean keyword and is renamed `stop`. -/
structure Interval where
  start : EReal
  stop : EReal

/-- Rust `Interval::from`: starts at the given point, ends at infinity. -/
def Interval.ofStart (a : ℝ) : Interval := ⟨(a : EReal), ⊤⟩

/-- Rust `Interval::surrounds`: strict `start < v && v < end`. -/
def Interval.surrounds (I : Interval) (v : ℝ) : Prop :=
  I.start < (v : EReal) ∧ (v : EReal) < I.stop

/-- Model of `Material` (`src/core/objects/material.rs`). -/
inductive Material where
  | Absorbant
  | Matte (color : Color)
  | Metal (color : Color) (fuzz : ℝ)
  | Dielectric (ridx : ℝ)

/-- Model of `Hit` (`src/core/objects/hit.rs`).  The Rust `bool` field
`is_front_face` is a classical proposition. -/
structure Hit where
  t : ℝ
  point : Point
  normal : Vec3
  is_front_face : Prop
  material : Material

/-- Rust `Hit::determine_front_face`: returns the normal opposing the ray and the
front-face flag `direction · outward_normal < 0`. -/
def Hit.determine_front_face (ray : Ray) (outward_normal : Vec3) : Vec3 × Prop :=
  (if ray.direction.dot outward_normal < 0 then outward_normal else -outward_normal,
   ray.direction.dot outward_normal < 0)

/-- Rust `reflect_dir`: `incoming - normal.scale(2 * incoming.dot(normal))`. -/
def reflect_dir (incoming normal : Vec3) : Vec3 :=
  incoming - normal.scale (2 * incoming.dot normal)

/-- Rust `reflectance`: Schlick approximation
`r0 + (1 - r0) * (1 - cos)^5` with `r0 = ((ridx1 - ridx2)/(ridx1 + ridx2))²`. -/
def reflectance (cos ridx1 ridx2 : ℝ) : ℝ :=
  let r0_sqrt := (ridx1 - ridx2) / (ridx1 + ridx2)
  let r0 := r0_sqrt * r0_sqrt
  r0 + (1 - r0) * (1 - cos) ^ 5

/-- Rust `refract_dir`: perpendicular/parallel decomposition of the refracted
direction. -/
def refract_dir (incoming normal : Vec3) (ridx_ratio : ℝ) : Vec3 :=
  let direction := incoming.unit
  let cos_theta := min 1 ((-direction).dot normal)
  let r_perp := (direction + normal.scale cos_theta).scale ridx_ratio
  let r_parl := normal.scale (-(Real.sqrt |1 - r_perp.norm_sq|))
  r_perp + r_parl

/-- Rust `scatter_matte`: diffuse direction `normal + random_unit`, falling back
to the normal when near zero.  The drawn random unit vector is the explicit
argument `rand_unit`. -/
def scatter_matte (hit : Hit) (color : Color) (rand_unit : Vec3) : Option Ray :=
  let direction := hit.normal + rand_unit
  let direction := if direction.is_near_zero then hit.normal else direction
  some (Ray.newc hit.point direction color)

/-- Rust `scatter_metal`: reflect, perturb by `clamp(fuzz,0,1) * rand_unit`,
absorb unless the perturbed direction points away from the surface. -/
def scatter_metal (ray : Ray) (hit : Hit) (color : Color) (fuzz : ℝ)
    (rand_unit : Vec3) : Option Ray :=
  let fuzz' := max 0 (min 1 fuzz)
  let direction := reflect_dir ray.direction hit.normal + rand_unit.scale fuzz'
  if direction.dot hit.normal > 0 then
    some (Ray.newc hit.point direction color)
  else
    none

/-- Rust `scatter_dielectric`: the uniform draw `rand::random_range(0.0 .. 1.0)`
is the explicit argument `rand_draw`. -/
def scatter_dielectric (ray : Ray) (hit : Hit) (ridx : ℝ) (rand_draw : ℝ) :
    Option Ray :=
  let ri := if hit.is_front_face then 1 / ridx else ridx
  let unit_dir := ray.direction.unit
  let cos_theta := min 1 (-(unit_dir.dot hit.normal))
  let sin_theta := Real.sqrt (1 - cos_theta * cos_theta)
  let can_refract := ri * sin_theta ≤ 1
  if can_refract ∨ reflectance cos_theta 1 ridx > rand_draw then
    some (Ray.new hit.point (refract_dir unit_dir hit.normal ri))
  else
    some (Ray.new hit.point (reflect_dir ray.direction hit.normal))

/-- Rust `Material::scatter` dispatch. -/
def Material.scatter (m : Material) (ray : Ray) (hit : Hit)
    (rand_unit : Vec3) (rand_draw : ℝ) : Option Ray :=
  match m with
  | .Absorbant => none
  | .Matte color => scatter_matte hit color rand_unit
  | .Metal color fuzz => scatter_metal ray hit color fuzz rand_unit
  | .Dielectric ridx => scatter_dielectric ray hit ridx rand_draw

/-- Model of `Sphere` (`src/core/objects/sphere.rs`). -/
structure Sphere where
  center : Point
  radius : ℝ
  material : Material

/-- Rust `Sphere::new`: a negative radius is clamped to 0. -/
def Sphere.new (center : Point) (radius : ℝ) (material : Material) : Sphere :=
  ⟨center, max 0 radius, material⟩

/-- The `Hit` record `Sphere::hit` builds for a chosen root `t`. -/
def Sphere.mkHit (sp : Sphere) (ray : Ray) (t : ℝ) : Hit :=
  let point := ray.at t
  let outward_normal := (point - sp.center).divs sp.radius
  let fr := Hit.determine_front_face ray outward_normal
  { t := t, point := point, normal := fr.1, is_front_face := fr.2,
    material := sp.material }

/-- Rust `Sphere::hit` (`impl Hittable for Sphere`): half-discriminant quadratic,
preferring the smaller root if strictly surrounded, else the larger. -/
def Sphere.hit (sp : Sphere) (ray : Ray) (t_range : Interval) : Option Hit :=
  let cq := sp.center - ray.origin
  let a := ray.direction.norm_sq
  let h := ray.direction.dot cq
  let c := cq.norm_sq - sp.radius * sp.radius
  let discr := h * h - a * c
  if discr < 0 then none
  else
    let discr_sqrt := Real.sqrt discr
    let t1 := (h - discr_sqrt) / a
    let t2 := (h + discr_sqrt) / a
    if t_range.surrounds t1 then some (sp.mkHit ray t1)
    else if t_range.surrounds t2 then some (sp.mkHit ray t2)
    else none

/-- Model of `Object` (`src/core/objects/hit.rs`): closed tagged variant of
hittable objects; currently only spheres. -/
inductive Object where
  | sphere (sp : Sphere)

/-- Dispatch of `impl Hittable for Object`. -/
def Object.hit (o : Object) (ray : Ray) (t_range : Interval) : Option Hit :=
  match o with
  | .sphere sp => sp.hit ray t_range

/-- Model of `Scene` (`src/core/scene.rs`): an ordered list of objects. -/
structure Scene where
  list : List Object

/-- The loop body of `impl Hittable for Scene`: scan the objects, querying
each with `[start, t_max)` where `t_max` shrinks to each closer hit's `t`. -/
def Scene.hitLoop (ray : Ray) (start : EReal) :
    List Object → EReal → Option Hit → Option Hit
  | [], _, closest_hit => closest_hit
  | obj :: rest, t_max, closest_hit =>
    match obj.hit ray ⟨start, t_max⟩ with
    | some h => Scene.hitLoop ray start rest ((h.t : ℝ) : EReal) (some h)
    | none => Scene.hitLoop ray start rest t_max closest_hit

/-- Rust `Scene::hit`: `t_max` starts at the interval's end, `closest_hit` at
`None`. -/
def Scene.hit (s : Scene) (ray : Ray) (t_range : Interval) : Option Hit :=
  Scene.hitLoop ray t_range.start s.list t_range.stop none

/-- The background gradient of `Ray::color`: blend white and sky blue by
`a = 0.5 * (unit_direction.y + 1)`. -/
def background (r : Ray) : Color :=
  let a := 0.5 * (r.direction.unit.y + 1)
  let white := (Vec3.mk 1 1 1).scale (1 - a)
  let blue := (Vec3.mk 0.5 0.7 1).scale a
  white + blue

/-- Rust `Ray::color` (`src/core/types/ray.rs`): recursive path tracing with a
bounce budget.  The RNG is an oracle `rng` supplying, per remaining budget
level, the random unit vector and the uniform draw a material scatter may
consume. -/
def Ray.color (scene : Scene) (rng : ℕ → Vec3 × ℝ) : Ray → ℕ → Color
  | _, 0 => Color.black
  | r, n + 1 =>
    match scene.hit r (Interval.ofStart 0.001) with
    | none => background r
    | some hit =>
      match hit.material.scatter r hit (rng n).1 (rng n).2 with
      | some scattered_ray =>
        scattered_ray.attenuation * Ray.color scene rng scattered_ray n
      | none => Color.black

/-- Instrumented variant of `Ray.color` that counts how many `Scene::hit`
queries the recursion performs (for the termination/budget claims). -/
def Ray.colorQueries (scene : Scene) (rng : ℕ → Vec3 × ℝ) : Ray → ℕ → ℕ
  | _, 0 => 0
  | r, n + 1 =>
    match scene.hit r (Interval.ofStart 0.001) with
    | none => 1
    | some hit =>
      match hit.material.scatter r hit (rng n).1 (rng n).2 with
      | some scattered_ray => 1 + Ray.colorQueries scene rng scattered_ray n
      | none => 1

/-- Model of `CameraSetup` (`src/core/camera.rs`). -/
structure CameraSetup where
  width : ℕ
  height : ℕ
  v_fov : ℝ
  lookfrom : Point
  lookat : Point
  view_up : Vec3
  defocus_angle : ℝ
  focus_distance : ℝ

/-- Model of `Camera` (`src/core/camera.rs`). -/
structure Camera where
  img_size : ℕ × ℕ
  center : Point
  px_d_u : Vec3
  px_d_v : Vec3
  px_00 : Point
  samples_per_px : ℕ
  bounces : ℕ
  defocus_angle : ℝ
  defocus_disk_u : Vec3
  defocus_disk_v : Vec3

/-- Rust `Camera::viewport_dimensions`. -/
def Camera.viewport_dimensions (setup : CameraSetup) : ℝ × ℝ :=
  let h := Real.tan (setup.v_fov / 2 * Real.pi / 180)
  let height := 2 * h * setup.focus_distance
  let width := height * (setup.width : ℝ) / (setup.height : ℝ)
  (width, height)

/-- Rust `Camera::upper_left_px`. -/
def Camera.upper_left_px (camera_center : Point) (focus_dist : ℝ)
    (w vp_u vp_v px_d_u px_d_v : Vec3) : Point :=
  let vp_00 := camera_center - w.scale focus_dist - vp_u.divs 2 - vp_v.divs 2
  vp_00 + (px_d_u + px_d_v).divs 2

/-- Rust `Camera::new`: derives the viewing geometry; `samples_per_px` and
`bounces` both start at 1. -/
def Camera.new (setup : CameraSetup) : Camera :=
  let direction := setup.lookfrom - setup.lookat
  let camera_center := setup.lookfrom
  let vp := Camera.viewport_dimensions setup
  let w := direction.unit
  let u := (setup.view_up.cross w).unit
  let v := w.cross u
  let vp_u := u.scale vp.1
  let vp_v := (-v).scale vp.2
  let px_d_u := vp_u.divs (setup.width : ℝ)
  let px_d_v := vp_v.divs (setup.height : ℝ)
  let px_00 := Camera.upper_left_px camera_center setup.focus_distance w
    vp_u vp_v px_d_u px_d_v
  let defocus_radius :=
    setup.focus_distance * Real.tan (setup.defocus_angle / 2 * Real.pi / 180)
  let defocus_disk_u := u.scale defocus_radius
  let defocus_disk_v := v.scale defocus_radius
  { img_size := (setup.width, setup.height),
    center := camera_center,
    px_d_u := px_d_u,
    px_d_v := px_d_v,
    px_00 := px_00,
    samples_per_px := 1,
    bounces := 1,
    defocus_angle := setup.defocus_angle,
    defocus_disk_u := defocus_disk_u,
    defocus_disk_v := defocus_disk_v }

/-- Rust `Camera::anti_aliasing`: stores `max(1, samples)`. -/
def Camera.anti_aliasing (c : Camera) (samples : ℕ) : Camera :=
  { c with samples_per_px := max 1 samples }

/-- Rust `Camera::bounces` (the builder method; renamed since the field is already
called `bounces`): stores the argument unchanged. -/
def Camera.setBounces (c : Camera) (bounces : ℕ) : Camera :=
  { c with bounces := bounces }

/-- Rust `Camera::sampling_offset`: jitter `(rx, ry, 0)` with both draws from
`[-0.5, 0.5)` when supersampling is on, else the zero vector.  The two draws
are the oracle arguments `rx`, `ry`. -/
def Camera.sampling_offset (c : Camera) (rx ry : ℝ) : Vec3 :=
  if c.samples_per_px > 1 then ⟨rx, ry, 0⟩ else Vec3.zero

/-- Rust `Camera::sampling_disk_offset`: a random point of the unit disk when the
defocus angle is positive, else the zero vector.  The drawn point is the
oracle argument `rdisk`. -/
def Camera.sampling_disk_offset (c : Camera) (rdisk : Vec3) : Vec3 :=
  if c.defocus_angle > 0 then rdisk else Vec3.zero

/-- Rust `Camera::sampling_ray`. -/
def Camera.sampling_ray (c : Camera) (px_i px_j : ℕ) (rx ry : ℝ)
    (rdisk : Vec3) : Ray :=
  let px_offset := c.sampling_offset rx ry
  let px_sample := c.px_00
    + c.px_d_u.scale ((px_i : ℝ) + px_offset.x)
    + c.px_d_v.scale ((px_j : ℝ) + px_offset.y)
  let origin_offset := c.sampling_disk_offset rdisk
  let origin := c.center
    + c.defocus_disk_u.scale origin_offset.x
    + c.defocus_disk_v.scale origin_offset.y
  let direction := px_sample - origin
  Ray.new origin direction

/-- Rust `Camera::sample_pixel`: average `samples_per_px` sampling rays run
through `Ray::color`.  `sr` supplies each sample's jitter and disk draws,
`cr` each sample's scatter randomness. -/
def Camera.sample_pixel (c : Camera) (px_i px_j : ℕ) (scene : Scene)
    (sr : ℕ → ℝ × ℝ × Vec3) (cr : ℕ → ℕ → Vec3 × ℝ) : Color :=
  let rgb := (List.range c.samples_per_px).foldl
    (fun acc k =>
      acc + Ray.color scene (cr k)
        (c.sampling_ray px_i px_j (sr k).1 (sr k).2.1 (sr k).2.2) c.bounces)
    Vec3.zero
  rgb.scale (1 / (c.samples_per_px : ℝ))

/-- Model of `Image` (`src/types/image.rs`): a row-major flat buffer. -/
structure Image where
  height : ℕ
  width : ℕ
  data : List Color

/-- Rust `Image::init`: all-black image. -/
def Image.init (height width : ℕ) : Image :=
  ⟨height, width, List.replicate (height * width) Color.black⟩

/-- Rust `Image`'s `IndexMut` at row-major index `(i, j)`. -/
def Image.setPx (img : Image) (i j : ℕ) (c : Color) : Image :=
  { img with data := img.data.set (i * img.width + j) c }

/-- The row decomposition the encoder iterates over (`for line in image`). -/
def Image.rows (img : Image) : List (List Color) :=
  (List.range img.height).map fun i =>
    (List.range img.width).map fun j =>
      img.data.getD (i * img.width + j) Color.black

/-- An `f64` value for the output encoder: NaN, the signed infinities, or a
finite value. -/
inductive F64 where
  | nan
  | pinf
  | ninf
  | fin (x : ℝ)

/-- Predicate: `y` is (the value of) an integer. -/
def IsIntVal (y : ℝ) : Prop := ∃ n : ℤ, (n : ℝ) = y

/-- Predicate: `y` is (the value of) an odd integer. -/
def IsOddIntVal (y : ℝ) : Prop := ∃ n : ℤ, Odd n ∧ (n : ℝ) = y

/-- IEEE-754 `powf` on the extended values (`f64::powf`): `pow(±∞, y)` and
`pow(x, y)` for `y ≠ 0`; a negative finite base with a non-integer exponent
gives NaN, `pow(-∞, y)` for positive non-odd-integer `y` gives `+∞`. -/
def F64.powf (b : F64) (y : ℝ) : F64 :=
  if y = 0 then .fin 1
  else
    match b with
    | .nan => .nan
    | .pinf => if 0 < y then .pinf else .fin 0
    | .ninf =>
      if 0 < y then (if IsOddIntVal y then .ninf else .pinf) else .fin 0
    | .fin x =>
      if 0 < x then .fin (x ^ y)
      else if x = 0 then (if 0 < y then .fin 0 else .pinf)
      else if IsOddIntVal y then .fin (-((-x) ^ y))
      else if IsIntVal y then .fin ((-x) ^ y)
      else .nan

/-- Rust `f64::clamp(lo, hi)` (with finite `lo ≤ hi`): propagates NaN, sends the
infinities to the respective bound. -/
def F64.clamp (v : F64) (lo hi : ℝ) : F64 :=
  match v with
  | .nan => .nan
  | .pinf => .fin hi
  | .ninf => .fin lo
  | .fin x => .fin (max lo (min hi x))

/-- Multiplication by a positive finite constant (the `256.0 *` step). -/
def F64.mulPos (k : ℝ) (v : F64) : F64 :=
  match v with
  | .nan => .nan
  | .pinf => .pinf
  | .ninf => .ninf
  | .fin x => .fin (k * x)

/-- Rust's saturating `as u8` cast: NaN and `-∞` to 0, `+∞` to 255, finite
values truncated toward zero and saturated into `[0, 255]`. -/
def F64.toU8 (v : F64) : ℕ :=
  match v with
  | .nan => 0
  | .pinf => 255
  | .ninf => 0
  | .fin x => if x < 0 then 0 else min 255 (Int.toNat ⌊x⌋)

/-- One channel of `calc_colors` (`src/core/output/ppm.rs`): gamma-correct by
`powf(1/gamma)`, then `(256.0 * x.clamp(0.0, 0.999)) as u8`. -/
def calcChannel (v : F64) (gamma : ℝ) : ℕ :=
  F64.toU8 (F64.mulPos 256 (F64.clamp (F64.powf v (1 / gamma)) 0 0.999))

/-- Rust `calc_colors` on a finite pixel color: the three 8-bit channel values. -/
def calc_colors (pixel : Color) (gamma : ℝ) : ℕ × ℕ × ℕ :=
  (calcChannel (.fin pixel.x) gamma,
   calcChannel (.fin pixel.y) gamma,
   calcChannel (.fin pixel.z) gamma)

/-- Rust `ppm::plain`: the ASCII (`P3`) stream, as a string. -/
def plain (image : Image) (gamma : ℝ) : String :=
  "P3\n" ++ Nat.repr image.width ++ " " ++ Nat.repr image.height ++ "\n255\n"
    ++ String.join ((image.rows.map fun line =>
        String.join (line.map fun pixel =>
          let rgb := calc_colors pixel gamma
          Nat.repr rgb.1 ++ " " ++ Nat.repr rgb.2.1 ++ " "
            ++ Nat.repr rgb.2.2 ++ "\n")))

/-- Byte view of an ASCII string (for the binary header). -/
def strBytes (s : String) : List ℕ := s.data.map Char.toNat

/-- Rust `ppm::raw`: the binary (`P6`) stream, as a list of bytes. -/
def raw (image : Image) (gamma : ℝ) : List ℕ :=
  strBytes ("P6\n" ++ Nat.repr image.width ++ " " ++ Nat.repr image.height
      ++ "\n255\n")
    ++ (image.rows.map fun line =>
        (line.map fun pixel =>
          let rgb := calc_colors pixel gamma
          [rgb.1, rgb.2.1, rgb.2.2]).flatten).flatten

@[simp]
theorem Vec3.add_def (a b : Vec3) :
    a + b = ⟨a.x + b.x, a.y + b.y, a.z + b.z⟩ := rfl

@[simp]
theorem Vec3.sub_def (a b : Vec3) :
    a - b = ⟨a.x - b.x, a.y - b.y, a.z - b.z⟩ := rfl

@[simp]
theorem Vec3.neg_def (a : Vec3) : -a = ⟨-a.x, -a.y, -a.z⟩ := rfl

@[simp]
theorem Vec3.mul_def (a b : Vec3) :
    a * b = ⟨a.x * b.x, a.y * b.y, a.z * b.z⟩ := rfl

/-- C6: Metal scatter computes `direction = reflect(d,n) + clamp(fuzz,0,1) ·
random_unit` and returns `None` exactly when `direction · normal ≤ 0`;
otherwise `Some` ray from the hit point with the metal's color as
attenuation. -/
theorem C6_metal_scatter (ray : Ray) (hit : Hit) (color : Color) (fuzz : ℝ)
    (rand_unit : Vec3) :
    (scatter_metal ray hit color fuzz rand_unit = none ↔
      (reflect_dir ray.direction hit.normal
        + rand_unit.scale (max 0 (min 1 fuzz))).dot hit.normal ≤ 0) ∧
    (∀ r', scatter_metal ray hit color fuzz rand_unit = some r' →
      r'.origin = hit.point ∧
      r'.direction = reflect_dir ray.direction hit.normal
        + rand_unit.scale (max 0 (min 1 fuzz)) ∧
      r'.attenuation = color) := by
  unfold scatter_metal
  by_cases h : (reflect_dir ray.direction hit.normal
      + rand_unit.scale (max 0 (min 1 fuzz))).dot hit.normal > 0
  · refine ⟨by simp [h, not_le.mpr h], ?_⟩
    intro r' hr'
    rw [if_pos h] at hr'
    obtain rfl := Option.some.inj hr'
    exact ⟨rfl, rfl, rfl⟩
  · refine ⟨by simp [h, le_of_not_lt h], ?_⟩
    intro r' hr'
    rw [if_neg h] at hr'
    exact absurd hr' (by simp)

/-- C6 witness: a perfect mirror hit from above scatters (is not absorbed). -/
theorem C6_metal_scatter_witness :
    scatter_metal (Ray.new ⟨0, 0, 0⟩ ⟨1, -1, 0⟩)
      ⟨1, ⟨1, 0, 0⟩, ⟨0, 1, 0⟩, True, .Metal ⟨1, 0, 0⟩ 0⟩ ⟨1, 0, 0⟩ 0
      Vec3.zero ≠ none := by
  intro hn
  have h := (C6_metal_scatter (Ray.new ⟨0, 0, 0⟩ ⟨1, -1, 0⟩)
    ⟨1, ⟨1, 0, 0⟩, ⟨0, 1, 0⟩, True, .Metal ⟨1, 0, 0⟩ 0⟩ ⟨1, 0, 0⟩ 0
    Vec3.zero).1.mp hn
  simp [Ray.new, reflect_dir, Vec3.dot, Vec3.scale, Vec3.zero] at h

/-- Each recursion level of `Ray::color` performs at most one scene query per
remaining bounce: the query count is bounded by the budget. -/
theorem colorQueries_le (scene : Scene) (rng : ℕ → Vec3 × ℝ) (n : ℕ) :
    ∀ r, Ray.colorQueries scene rng r n ≤ n := by
  induction n with
  | zero => intro r; simp [Ray.colorQueries]
  | succ n ih =>
    intro r
    rcases h : scene.hit r (Interval.ofStart 0.001) with _ | hit
    · simp [Ray.colorQueries, h]
    · rcases hs : hit.material.scatter r hit (rng n).1 (rng n).2 with _ | sr
      · simp [Ray.colorQueries, h, hs]
      · have := ih sr
        simp only [Ray.colorQueries, h, hs]
        omega

/-- C4: `ray.color` is a total function of the finite bounce budget (the
recursion structurally decreases the budget); with budget 0 it returns black
and performs no scene query, and with budget `n` it performs at most `n`
scene queries — for every scene, including mutually-facing mirrors. -/
theorem C4_color_budget (scene : Scene) (rng : ℕ → Vec3 × ℝ) (r : Ray)
    (n : ℕ) :
    Ray.color scene rng r 0 = Color.black ∧
    Ray.colorQueries scene rng r 0 = 0 ∧
    Ray.colorQueries scene rng r n ≤ n :=
  ⟨rfl, rfl, colorQueries_le scene rng n r⟩

/-- Rust `Camera::new` stores one sample per pixel. -/
theorem Camera.new_samples_per_px (setup : CameraSetup) :
    (Camera.new setup).samples_per_px = 1 := rfl

/-- Rust `Camera::new` stores a bounce budget of 1. -/
theorem Camera.new_bounces (setup : CameraSetup) :
    (Camera.new setup).bounces = 1 := rfl

/-- C9: an untuned camera has `samples_per_px = 1` and `bounces = 1`;
`anti_aliasing` stores `max 1 s`, `bounces` stores its argument unchanged;
consequently an untuned camera evaluates a pixel as a single sampling ray's
color, with at most one scene query in the recursion. -/
theorem C9_camera_defaults (setup : CameraSetup) (c : Camera) (s b : ℕ)
    (px_i px_j : ℕ) (scene : Scene) (sr : ℕ → ℝ × ℝ × Vec3)
    (cr : ℕ → ℕ → Vec3 × ℝ) (r : Ray) :
    (Camera.new setup).samples_per_px = 1 ∧
    (Camera.new setup).bounces = 1 ∧
    (c.anti_aliasing s).samples_per_px = max 1 s ∧
    (c.setBounces b).bounces = b ∧
    (Camera.new setup).sample_pixel px_i px_j scene sr cr =
      Ray.color scene (cr 0)
        ((Camera.new setup).sampling_ray px_i px_j (sr 0).1 (sr 0).2.1
          (sr 0).2.2) 1 ∧
    Ray.colorQueries scene (cr 0) r (Camera.new setup).bounces ≤ 1 := by
  refine ⟨rfl, rfl, rfl, rfl, ?_, ?_⟩
  · rw [Camera.sample_pixel, Camera.new_samples_per_px, Camera.new_bounces]
    simp [List.range_succ, Vec3.zero, Vec3.scale]
  · rw [Camera.new_bounces]
    exact colorQueries_le scene (cr 0) 1 r

/-- C7: with one sample per pixel and a non-positive defocus angle the
sampling ray is independent of all random draws and originates at the camera
center; with supersampling the jitter is `(rx, ry, 0)` (inside
`[-0.5,0.5)²` whenever the draws are), and with a positive defocus angle the
origin is offset by the disk draw scaled by the defocus basis. -/
theorem C7_sampling_ray (c : Camera) (px_i px_j : ℕ) (rx ry rx' ry' : ℝ)
    (rdisk rdisk' : Vec3) :
    (c.samples_per_px = 1 → c.defocus_angle ≤ 0 →
      c.sampling_ray px_i px_j rx ry rdisk
        = c.sampling_ray px_i px_j rx' ry' rdisk' ∧
      (c.sampling_ray px_i px_j rx ry rdisk).origin = c.center) ∧
    (c.samples_per_px > 1 → c.sampling_offset rx ry = ⟨rx, ry, 0⟩) ∧
    (c.samples_per_px > 1 → rx ∈ Set.Ico (-(0.5 : ℝ)) 0.5 →
      ry ∈ Set.Ico (-(0.5 : ℝ)) 0.5 →
      (c.sampling_offset rx ry).x ∈ Set.Ico (-(0.5 : ℝ)) 0.5 ∧
      (c.sampling_offset rx ry).y ∈ Set.Ico (-(0.5 : ℝ)) 0.5) ∧
    (c.defocus_angle > 0 →
      (c.sampling_ray px_i px_j rx ry rdisk).origin
        = c.center + c.defocus_disk_u.scale rdisk.x
          + c.defocus_disk_v.scale rdisk.y) := by
  refine ⟨?_, ?_, ?_, ?_⟩
  · intro h1 h2
    have hoff : ∀ a b : ℝ, c.sampling_offset a b = Vec3.zero := by
      intro a b
      rw [Camera.sampling_offset, if_neg (by omega)]
    have hdisk : ∀ v : Vec3, c.sampling_disk_offset v = Vec3.zero := by
      intro v
      rw [Camera.sampling_disk_offset, if_neg (not_lt.mpr h2)]
    constructor
    · rw [Camera.sampling_ray, Camera.sampling_ray, hoff, hoff, hdisk, hdisk]
    · rw [Camera.sampling_ray, hoff, hdisk]
      simp [Ray.new, Vec3.zero, Vec3.scale]
  · intro h1
    rw [Camera.sampling_offset, if_pos h1]
  · intro h1 hx hy
    rw [Camera.sampling_offset, if_pos h1]
    exact ⟨hx, hy⟩
  · intro h
    rw [Camera.sampling_ray, Camera.sampling_disk_offset, if_pos h]
    rfl

/-- C7 witness: a concrete one-sample, zero-aperture camera produces the same
ray for two different draw triples. -/
theorem C7_sampling_ray_witness :
    Camera.sampling_ray
      ⟨(2, 2), ⟨0, 0, 0⟩, ⟨1, 0, 0⟩, ⟨0, 1, 0⟩, ⟨0, 0, 1⟩, 1, 1, 0,
        ⟨0, 0, 0⟩, ⟨0, 0, 0⟩⟩ 0 0 0.3 0.4 ⟨1, 2, 3⟩
    = Camera.sampling_ray
      ⟨(2, 2), ⟨0, 0, 0⟩, ⟨1, 0, 0⟩, ⟨0, 1, 0⟩, ⟨0, 0, 1⟩, 1, 1, 0,
        ⟨0, 0, 0⟩, ⟨0, 0, 0⟩⟩ 0 0 (-0.2) 0.1 ⟨9, 9, 9⟩ :=
  ((C7_sampling_ray
      ⟨(2, 2), ⟨0, 0, 0⟩, ⟨1, 0, 0⟩, ⟨0, 1, 0⟩, ⟨0, 0, 1⟩, 1, 1, 0,
        ⟨0, 0, 0⟩, ⟨0, 0, 0⟩⟩ 0 0 0.3 0.4 (-0.2) 0.1 ⟨1, 2, 3⟩
      ⟨9, 9, 9⟩).1 rfl le_rfl).1

theorem Vec3.norm_sq_nonneg (v : Vec3) : 0 ≤ v.norm_sq := by
  unfold Vec3.norm_sq
  nlinarith [mul_self_nonneg v.x, mul_self_nonneg v.y, mul_self_nonneg v.z]

theorem sub_div_le_add_div (hq s a : ℝ) (hs : 0 ≤ s) (ha : 0 ≤ a) :
    (hq - s) / a ≤ (hq + s) / a := by
  rcases eq_or_lt_of_le ha with h0 | hpos
  · rw [← h0]
    simp
  · exact (div_le_div_iff_of_pos_right hpos).mpr (by linarith)

/-- Root selection (the second half of `Sphere::hit`) only returns a `t`
strictly surrounded by the queried interval. -/
theorem rootSelect_mem (t1 t2 : ℝ) (f : ℝ → Hit) (ft : ∀ t, (f t).t = t)
    (I : Interval) (hr : Hit)
    (hh : (if I.surrounds t1 then some (f t1)
      else if I.surrounds t2 then some (f t2) else none) = some hr) :
    I.start < (hr.t : EReal) ∧ (hr.t : EReal) < I.stop := by
  by_cases h1 : I.surrounds t1
  · rw [if_pos h1] at hh
    obtain rfl := Option.some.inj hh
    rw [ft]
    exact h1
  · rw [if_neg h1] at hh
    by_cases h2 : I.surrounds t2
    · rw [if_pos h2] at hh
      obtain rfl := Option.some.inj hh
      rw [ft]
      exact h2
    · rw [if_neg h2] at hh
      exact absurd hh (by simp)

/-- Root selection is stable under widening the interval's end: a hit found
with the tightened end is also what the original interval yields. -/
theorem rootSelect_mono (t1 t2 : ℝ) (h12 : t1 ≤ t2) (f : ℝ → Hit)
    (s e e' : EReal) (he : e' ≤ e) (hr : Hit)
    (hh : (if Interval.surrounds ⟨s, e'⟩ t1 then some (f t1)
      else if Interval.surrounds ⟨s, e'⟩ t2 then some (f t2) else none)
      = some hr) :
    (if Interval.surrounds ⟨s, e⟩ t1 then some (f t1)
      else if Interval.surrounds ⟨s, e⟩ t2 then some (f t2) else none)
      = some hr := by
  by_cases h1 : Interval.surrounds ⟨s, e'⟩ t1
  · rw [if_pos h1] at hh
    rw [if_pos ⟨h1.1, lt_of_lt_of_le h1.2 he⟩]
    exact hh
  · rw [if_neg h1] at hh
    by_cases h2 : Interval.surrounds ⟨s, e'⟩ t2
    · rw [if_pos h2] at hh
      have hn1 : ¬ Interval.surrounds ⟨s, e⟩ t1 := by
        rintro ⟨hs1, -⟩
        have he1 : e' ≤ (t1 : EReal) := le_of_not_lt fun hlt => h1 ⟨hs1, hlt⟩
        have h21 : (t2 : EReal) < (t1 : EReal) := lt_of_lt_of_le h2.2 he1
        exact absurd h12 (not_le.mpr (by exact_mod_cast h21))
      rw [if_neg hn1, if_pos ⟨h2.1, lt_of_lt_of_le h2.2 he⟩]
      exact hh
    · rw [if_neg h2] at hh
      exact absurd hh (by simp)

/-- Root selection is complete under tightening: if the original interval
yields a hit whose `t` is below the tightened end, the tightened interval
yields the same hit. -/
theorem rootSelect_complete (t1 t2 : ℝ) (f : ℝ → Hit) (ft : ∀ t, (f t).t = t)
    (s e e' : EReal) (he : e' ≤ e) (hr : Hit)
    (hh : (if Interval.surrounds ⟨s, e⟩ t1 then some (f t1)
      else if Interval.surrounds ⟨s, e⟩ t2 then some (f t2) else none)
      = some hr)
    (hlt : (hr.t : EReal) < e') :
    (if Interval.surrounds ⟨s, e'⟩ t1 then some (f t1)
      else if Interval.surrounds ⟨s, e'⟩ t2 then some (f t2) else none)
      = some hr := by
  by_cases h1 : Interval.surrounds ⟨s, e⟩ t1
  · rw [if_pos h1] at hh
    obtain rfl := Option.some.inj hh
    rw [ft] at hlt
    rw [if_pos ⟨h1.1, hlt⟩]
  · rw [if_neg h1] at hh
    by_cases h2 : Interval.surrounds ⟨s, e⟩ t2
    · rw [if_pos h2] at hh
      obtain rfl := Option.some.inj hh
      rw [ft] at hlt
      have hn1 : ¬ Interval.surrounds ⟨s, e'⟩ t1 := by
        rintro ⟨hs1, hlt1⟩
        exact h1 ⟨hs1, lt_of_lt_of_le hlt1 he⟩
      rw [if_neg hn1, if_pos ⟨h2.1, hlt⟩]
    · rw [if_neg h2] at hh
      exact absurd hh (by simp)

/-- Rust `Sphere::mkHit` reports the chosen root as its `t`. -/
theorem Sphere.mkHit_t (sp : Sphere) (ray : Ray) (t : ℝ) :
    (sp.mkHit ray t).t = t := rfl

/-- S1: any hit an object reports lies strictly inside the queried
interval. -/
theorem Object.hit_t_mem (o : Object) (ray : Ray) (I : Interval) (hr : Hit)
    (hh : o.hit ray I = some hr) :
    I.start < (hr.t : EReal) ∧ (hr.t : EReal) < I.stop := by
  rcases o with ⟨sp⟩
  simp only [Object.hit, Sphere.hit] at hh
  split at hh
  · exact absurd hh (by simp)
  · exact rootSelect_mem _ _ _ (sp.mkHit_t ray) I hr hh

/-- S2: a hit found with a tightened interval end is also the hit the object
reports for the original (wider) interval. -/
theorem Object.hit_mono (o : Object) (ray : Ray) (s e e' : EReal)
    (he : e' ≤ e) (hr : Hit) (hh : o.hit ray ⟨s, e'⟩ = some hr) :
    o.hit ray ⟨s, e⟩ = some hr := by
  rcases o with ⟨sp⟩
  simp only [Object.hit, Sphere.hit] at hh ⊢
  split at hh
  · exact absurd hh (by simp)
  next h1 =>
    rw [if_neg h1]
    refine rootSelect_mono _ _ ?_ _ s e e' he hr hh
    exact sub_div_le_add_div _ _ _ (Real.sqrt_nonneg _) (Vec3.norm_sq_nonneg _)

/-- S3: if the object's hit for the original interval has `t` below a
tightened end, the tightened query returns the same hit. -/
theorem Object.hit_complete (o : Object) (ray : Ray) (s e e' : EReal)
    (he : e' ≤ e) (hr : Hit) (hh : o.hit ray ⟨s, e⟩ = some hr)
    (hlt : (hr.t : EReal) < e') :
    o.hit ray ⟨s, e'⟩ = some hr := by
  rcases o with ⟨sp⟩
  simp only [Object.hit, Sphere.hit] at hh ⊢
  split at hh
  · exact absurd hh (by simp)
  next h1 =>
    rw [if_neg h1]
    exact rootSelect_complete _ _ _ (sp.mkHit_t ray) s e e' he hr hh hlt

/-- A loop state that already holds a best hit never degrades to `none`. -/
theorem Scene.hitLoop_ne_none (ray : Ray) (s : EReal) :
    ∀ (objs : List Object) (tmax : EReal) (hb : Hit),
      Scene.hitLoop ray s objs tmax (some hb) ≠ none := by
  intro objs
  induction objs with
  | nil => intro tmax hb; simp [Scene.hitLoop]
  | cons o rest ih =>
    intro tmax hb
    rcases h : o.hit ray ⟨s, tmax⟩ with _ | h0
    · simpa [Scene.hitLoop, h] using ih tmax hb
    · simpa [Scene.hitLoop, h] using ih ((h0.t : ℝ) : EReal) h0

/-- The scan yields `none` iff it started with no best hit and every object
(queried with the unchanged interval) misses. -/
theorem Scene.hitLoop_none_iff (ray : Ray) (s : EReal) :
    ∀ (objs : List Object) (tmax : EReal),
      Scene.hitLoop ray s objs tmax none = none ↔
        ∀ o ∈ objs, o.hit ray ⟨s, tmax⟩ = none := by
  intro objs
  induction objs with
  | nil => intro tmax; simp [Scene.hitLoop]
  | cons o rest ih =>
    intro tmax
    rcases h : o.hit ray ⟨s, tmax⟩ with _ | h0
    · simp only [Scene.hitLoop, h]
      rw [ih tmax]
      constructor
      · intro hall o' ho'
        rcases List.mem_cons.mp ho' with rfl | ho'
        · exact h
        · exact hall o' ho'
      · intro hall o' ho'
        exact hall o' (List.mem_cons_of_mem _ ho')
    · simp only [Scene.hitLoop, h]
      constructor
      · intro hnone
        exact absurd hnone (Scene.hitLoop_ne_none ray s rest _ h0)
      · intro hall
        exact absurd (hall o (List.mem_cons_self _ _)) (by simp [h])

/-- Minimality invariant of the scan: a returned hit comes from the initial
best or some scanned object, its `t` is bounded by the running `t_max`, and
no object's hit over the full interval beats it. -/
theorem Scene.hitLoop_min (ray : Ray) (s E : EReal) :
    ∀ (objs : List Object) (tmax : EReal) (best : Option Hit),
      tmax ≤ E →
      (best = none → tmax = E) →
      (∀ hb, best = some hb → (hb.t : EReal) ≤ tmax) →
      ∀ hr, Scene.hitLoop ray s objs tmax best = some hr →
        (best = some hr ∨ ∃ o ∈ objs, o.hit ray ⟨s, E⟩ = some hr) ∧
        (hr.t : EReal) ≤ tmax ∧
        (∀ o ∈ objs, ∀ h', o.hit ray ⟨s, E⟩ = some h' → hr.t ≤ h'.t) := by
  intro objs
  induction objs with
  | nil =>
    intro tmax best hE hnone hsome hr hloop
    refine ⟨Or.inl hloop, hsome hr hloop, ?_⟩
    intro o ho
    exact absurd ho (List.not_mem_nil o)
  | cons o rest ih =>
    intro tmax best hE hnone hsome hr hloop
    rcases h : o.hit ray ⟨s, tmax⟩ with _ | h0
    · rw [Scene.hitLoop, h] at hloop
      obtain ⟨horig, hle, hmin⟩ := ih tmax best hE hnone hsome hr hloop
      have hobound : ∀ h', o.hit ray ⟨s, E⟩ = some h' → hr.t ≤ h'.t := by
        intro h' hh'
        have htm : tmax ≤ (h'.t : EReal) := by
          by_contra hc
          push_neg at hc
          exact absurd (Object.hit_complete o ray s E tmax hE h' hh' hc)
            (by simp [h])
        exact_mod_cast le_trans hle htm
      refine ⟨?_, hle, ?_⟩
      · rcases horig with hb | ⟨o', ho', hhit⟩
        · exact Or.inl hb
        · exact Or.inr ⟨o', List.mem_cons_of_mem _ ho', hhit⟩
      · intro o' ho' h' hh'
        rcases List.mem_cons.mp ho' with rfl | ho'
        · exact hobound h' hh'
        · exact hmin o' ho' h' hh'
    · rw [Scene.hitLoop, h] at hloop
      have ht0 := Object.hit_t_mem o ray ⟨s, tmax⟩ h0 h
      have hE' : ((h0.t : ℝ) : EReal) ≤ E := le_trans (le_of_lt ht0.2) hE
      obtain ⟨horig, hle, hmin⟩ := ih ((h0.t : ℝ) : EReal) (some h0) hE'
        (by intro hc; exact absurd hc (by simp))
        (by intro hb hb'; obtain rfl := Option.some.inj hb'; exact le_refl _)
        hr hloop
      have hoE : o.hit ray ⟨s, E⟩ = some h0 :=
        Object.hit_mono o ray s E tmax hE h0 h
      have hbound : ∀ h', o.hit ray ⟨s, E⟩ = some h' → hr.t ≤ h'.t := by
        intro h' hh'
        rw [hoE] at hh'
        obtain rfl := Option.some.inj hh'
        exact_mod_cast hle
      refine ⟨?_, le_trans hle (le_of_lt ht0.2), ?_⟩
      · rcases horig with hb | ⟨o', ho', hhit⟩
        · obtain rfl := Option.some.inj hb
          exact Or.inr ⟨o, List.mem_cons_self _ _, hoE⟩
        · exact Or.inr ⟨o', List.mem_cons_of_mem _ ho', hhit⟩
      · intro o' ho' h' hh'
        rcases List.mem_cons.mp ho' with rfl | ho'
        · exact hbound h' hh'
        · exact hmin o' ho' h' hh'

/-- First-wins invariant of the scan: a returned hit that is not the initial
best comes from a position before which every object's full-interval hit has
strictly larger `t`. -/
theorem Scene.hitLoop_first (ray : Ray) (s E : EReal) :
    ∀ (objs : List Object) (tmax : EReal) (best : Option Hit),
      tmax ≤ E →
      ∀ hr, Scene.hitLoop ray s objs tmax best = some hr →
        best = some hr ∨
        ((hr.t : EReal) < tmax ∧ ∃ pre o post, objs = pre ++ o :: post ∧
          o.hit ray ⟨s, E⟩ = some hr ∧
          ∀ o' ∈ pre, ∀ h', o'.hit ray ⟨s, E⟩ = some h' → hr.t < h'.t) := by
  intro objs
  induction objs with
  | nil =>
    intro tmax best hE hr hloop
    exact Or.inl hloop
  | cons o rest ih =>
    intro tmax best hE hr hloop
    rcases h : o.hit ray ⟨s, tmax⟩ with _ | h0
    · rw [Scene.hitLoop, h] at hloop
      rcases ih tmax best hE hr hloop with hb | ⟨hlt, pre, ob, post, heq, hhit, hpre⟩
      · exact Or.inl hb
      · refine Or.inr ⟨hlt, o :: pre, ob, post, by rw [heq, List.cons_append], hhit, ?_⟩
        intro o' ho' h' hh'
        rcases List.mem_cons.mp ho' with rfl | ho'
        · have htm : tmax ≤ (h'.t : EReal) := by
            by_contra hc
            push_neg at hc
            exact absurd (Object.hit_complete o' ray s E tmax hE h' hh' hc)
              (by simp [h])
          exact_mod_cast lt_of_lt_of_le hlt htm
        · exact hpre o' ho' h' hh'
    · rw [Scene.hitLoop, h] at hloop
      have ht0 := Object.hit_t_mem o ray ⟨s, tmax⟩ h0 h
      have hE' : ((h0.t : ℝ) : EReal) ≤ E := le_trans (le_of_lt ht0.2) hE
      have hoE : o.hit ray ⟨s, E⟩ = some h0 :=
        Object.hit_mono o ray s E tmax hE h0 h
      rcases ih ((h0.t : ℝ) : EReal) (some h0) hE' hr hloop with
        hb | ⟨hlt, pre, ob, post, heq, hhit, hpre⟩
      · obtain rfl := Option.some.inj hb
        exact Or.inr ⟨ht0.2, [], o, rest, rfl, hoE, by simp⟩
      · refine Or.inr ⟨lt_trans hlt ht0.2, o :: pre, ob, post,
          by rw [heq, List.cons_append], hhit, ?_⟩
        intro o' ho' h' hh'
        rcases List.mem_cons.mp ho' with rfl | ho'
        · rw [hoE] at hh'
          obtain rfl := Option.some.inj hh'
          exact_mod_cast hlt
        · exact hpre o' ho' h' hh'

/-- Rust `Sphere::hit` in terms of precomputed quadratic coefficients. -/
theorem Sphere.hit_formula (sp : Sphere) (ray : Ray) (I : Interval)
    (a h c : ℝ)
    (ha : ray.direction.norm_sq = a)
    (hh : ray.direction.dot (sp.center - ray.origin) = h)
    (hc : (sp.center - ray.origin).norm_sq - sp.radius * sp.radius = c) :
    sp.hit ray I =
      if h * h - a * c < 0 then none
      else if I.surrounds ((h - Real.sqrt (h * h - a * c)) / a) then
        some (sp.mkHit ray ((h - Real.sqrt (h * h - a * c)) / a))
      else if I.surrounds ((h + Real.sqrt (h * h - a * c)) / a) then
        some (sp.mkHit ray ((h + Real.sqrt (h * h - a * c)) / a))
      else none := by
  simp only [Sphere.hit]
  rw [ha, hh, hc]

/-- Evaluation of `Sphere::hit` for the unit sphere at the origin against the
ray from `(-10,0,0)` with direction `(1,0,0)`: roots 9 and 11. -/
theorem sphereC2_eval (I : Interval) :
    (Sphere.new ⟨0, 0, 0⟩ 1 .Absorbant).hit (Ray.new ⟨-10, 0, 0⟩ ⟨1, 0, 0⟩) I =
      if I.surrounds 9 then
        some ((Sphere.new ⟨0, 0, 0⟩ 1 .Absorbant).mkHit
          (Ray.new ⟨-10, 0, 0⟩ ⟨1, 0, 0⟩) 9)
      else if I.surrounds 11 then
        some ((Sphere.new ⟨0, 0, 0⟩ 1 .Absorbant).mkHit
          (Ray.new ⟨-10, 0, 0⟩ ⟨1, 0, 0⟩) 11)
      else none := by
  rw [Sphere.hit_formula _ _ I 1 10 99
    (by norm_num [Vec3.norm_sq, Ray.new])
    (by norm_num [Vec3.dot, Ray.new, Sphere.new])
    (by norm_num [Vec3.norm_sq, Ray.new, Sphere.new])]
  rw [show (10 * 10 - 1 * 99 : ℝ) = 1 by norm_num]
  rw [if_neg (by norm_num), Real.sqrt_one]
  norm_num

/-- C2: `Sphere::hit` returns `None` for a negative discriminant, otherwise
the hit at the smaller root `t1 = (h - √disc)/a` if strictly surrounded,
else at `t2 = (h + √disc)/a` if strictly surrounded, else `None`; the unit
sphere test ray from `(-10,0,0)` along `(1,0,0)` hits `(-1,0,0)` on
`[0,∞)`, and on the interval `(0,1)` (which excludes the mathematical root
`t = 9`) the result is `None`. -/
theorem C2_sphere_hit :
    (∀ (sp : Sphere) (ray : Ray) (I : Interval) (a h c : ℝ),
      a = ray.direction.norm_sq →
      h = ray.direction.dot (sp.center - ray.origin) →
      c = (sp.center - ray.origin).norm_sq - sp.radius * sp.radius →
      (h * h - a * c < 0 → sp.hit ray I = none) ∧
      (0 ≤ h * h - a * c →
        (I.surrounds ((h - Real.sqrt (h * h - a * c)) / a) →
          ∃ hr, sp.hit ray I = some hr ∧
            hr.t = (h - Real.sqrt (h * h - a * c)) / a ∧
            hr.point = ray.at hr.t) ∧
        (¬ I.surrounds ((h - Real.sqrt (h * h - a * c)) / a) →
          I.surrounds ((h + Real.sqrt (h * h - a * c)) / a) →
          ∃ hr, sp.hit ray I = some hr ∧
            hr.t = (h + Real.sqrt (h * h - a * c)) / a ∧
            hr.point = ray.at hr.t) ∧
        (¬ I.surrounds ((h - Real.sqrt (h * h - a * c)) / a) →
          ¬ I.surrounds ((h + Real.sqrt (h * h - a * c)) / a) →
          sp.hit ray I = none))) ∧
    (∃ hr, (Sphere.new ⟨0, 0, 0⟩ 1 .Absorbant).hit
        (Ray.new ⟨-10, 0, 0⟩ ⟨1, 0, 0⟩) (Interval.ofStart 0) = some hr ∧
      hr.t = 9 ∧ hr.point = ⟨-1, 0, 0⟩) ∧
    (Sphere.new ⟨0, 0, 0⟩ 1 .Absorbant).hit (Ray.new ⟨-10, 0, 0⟩ ⟨1, 0, 0⟩)
      ⟨((0 : ℝ) : EReal), ((1 : ℝ) : EReal)⟩ = none := by
  refine ⟨?_, ?_, ?_⟩
  · intro sp ray I a h c ha hh hc
    subst ha hh hc
    constructor
    · intro hlt
      rw [Sphere.hit_formula sp ray I _ _ _ rfl rfl rfl, if_pos hlt]
    · intro hge
      have hnlt : ¬ (_ < (0 : ℝ)) := not_lt.mpr hge
      refine ⟨?_, ?_, ?_⟩
      · intro hs1
        exact ⟨_, by
          rw [Sphere.hit_formula sp ray I _ _ _ rfl rfl rfl, if_neg hnlt,
            if_pos hs1], rfl, rfl⟩
      · intro hs1 hs2
        exact ⟨_, by
          rw [Sphere.hit_formula sp ray I _ _ _ rfl rfl rfl, if_neg hnlt,
            if_neg hs1, if_pos hs2], rfl, rfl⟩
      · intro hs1 hs2
        rw [Sphere.hit_formula sp ray I _ _ _ rfl rfl rfl, if_neg hnlt,
          if_neg hs1, if_neg hs2]
  · have h9 : (Interval.ofStart 0).surrounds 9 :=
      ⟨EReal.coe_lt_coe_iff.mpr (by norm_num), EReal.coe_lt_top 9⟩
    refine ⟨_, by rw [sphereC2_eval, if_pos h9], rfl, ?_⟩
    show ((Sphere.new ⟨0, 0, 0⟩ 1 .Absorbant).mkHit
      (Ray.new ⟨-10, 0, 0⟩ ⟨1, 0, 0⟩) 9).point = _
    norm_num [Sphere.mkHit, Ray.at, Ray.new, Vec3.scale]
  · rw [sphereC2_eval]
    rw [if_neg ?_, if_neg ?_]
    · rintro ⟨-, hlt⟩
      exact absurd (EReal.coe_lt_coe_iff.mp hlt) (by norm_num)
    · rintro ⟨-, hlt⟩
      exact absurd (EReal.coe_lt_coe_iff.mp hlt) (by norm_num)

/-- C2 witness: the unit-sphere test instance, extracted from the theorem. -/
theorem C2_sphere_hit_witness :
    ∃ hr, (Sphere.new ⟨0, 0, 0⟩ 1 .Absorbant).hit
        (Ray.new ⟨-10, 0, 0⟩ ⟨1, 0, 0⟩) (Interval.ofStart 0) = some hr ∧
      hr.t = 9 ∧ hr.point = ⟨-1, 0, 0⟩ :=
  C2_sphere_hit.2.1

/-- Evaluation of `Sphere::hit` for the sphere at `(1.5,0,0)` with radius
`0.5` against the ray from the origin along `(1,0,0)`: roots 1 and 2. -/
theorem sphereC3a_eval (I : Interval) :
    (Sphere.new ⟨1.5, 0, 0⟩ 0.5 .Absorbant).hit (Ray.new ⟨0, 0, 0⟩ ⟨1, 0, 0⟩) I =
      if I.surrounds 1 then
        some ((Sphere.new ⟨1.5, 0, 0⟩ 0.5 .Absorbant).mkHit
          (Ray.new ⟨0, 0, 0⟩ ⟨1, 0, 0⟩) 1)
      else if I.surrounds 2 then
        some ((Sphere.new ⟨1.5, 0, 0⟩ 0.5 .Absorbant).mkHit
          (Ray.new ⟨0, 0, 0⟩ ⟨1, 0, 0⟩) 2)
      else none := by
  rw [Sphere.hit_formula _ _ I 1 1.5 2
    (by norm_num [Vec3.norm_sq, Ray.new])
    (by norm_num [Vec3.dot, Ray.new, Sphere.new])
    (by norm_num [Vec3.norm_sq, Ray.new, Sphere.new])]
  rw [show (1.5 * 1.5 - 1 * 2 : ℝ) = 0.5 ^ 2 by norm_num,
    Real.sqrt_sq (by norm_num)]
  rw [if_neg (by norm_num)]
  norm_num

/-- Evaluation of `Sphere::hit` for the sphere at `(3.5,0,0)` with radius
`0.5` against the ray from the origin along `(1,0,0)`: roots 3 and 4. -/
theorem sphereC3b_eval (I : Interval) :
    (Sphere.new ⟨3.5, 0, 0⟩ 0.5 .Absorbant).hit (Ray.new ⟨0, 0, 0⟩ ⟨1, 0, 0⟩) I =
      if I.surrounds 3 then
        some ((Sphere.new ⟨3.5, 0, 0⟩ 0.5 .Absorbant).mkHit
          (Ray.new ⟨0, 0, 0⟩ ⟨1, 0, 0⟩) 3)
      else if I.surrounds 4 then
        some ((Sphere.new ⟨3.5, 0, 0⟩ 0.5 .Absorbant).mkHit
          (Ray.new ⟨0, 0, 0⟩ ⟨1, 0, 0⟩) 4)
      else none := by
  rw [Sphere.hit_formula _ _ I 1 3.5 12
    (by norm_num [Vec3.norm_sq, Ray.new])
    (by norm_num [Vec3.dot, Ray.new, Sphere.new])
    (by norm_num [Vec3.norm_sq, Ray.new, Sphere.new])]
  rw [show (3.5 * 3.5 - 1 * 12 : ℝ) = 0.5 ^ 2 by norm_num,
    Real.sqrt_sq (by norm_num)]
  rw [if_neg (by norm_num)]
  norm_num

/-- C3: `Scene::hit` on an empty scene is `None`; it is `None` iff no object
is hit within the interval; a returned hit is some object's hit over the
full interval and has minimal `t` among all objects' hits; and for the two
spheres at `x = 1.5` and `x = 3.5` (radius 0.5) with a ray from the origin
along `+x`, the resolved hit point is `(1,0,0)`. -/
theorem C3_scene_nearest_hit :
    (∀ (scene : Scene) (ray : Ray) (I : Interval),
      (scene.list = [] → scene.hit ray I = none) ∧
      (scene.hit ray I = none ↔ ∀ o ∈ scene.list, o.hit ray I = none) ∧
      (∀ hr, scene.hit ray I = some hr →
        (∃ o ∈ scene.list, o.hit ray I = some hr) ∧
        ∀ o ∈ scene.list, ∀ h', o.hit ray I = some h' → hr.t ≤ h'.t)) ∧
    (∃ hr, Scene.hit ⟨[.sphere (Sphere.new ⟨1.5, 0, 0⟩ 0.5 .Absorbant),
        .sphere (Sphere.new ⟨3.5, 0, 0⟩ 0.5 .Absorbant)]⟩
        (Ray.new ⟨0, 0, 0⟩ ⟨1, 0, 0⟩) (Interval.ofStart 0) = some hr ∧
      hr.t = 1 ∧ hr.point = ⟨1, 0, 0⟩) := by
  constructor
  · intro scene ray I
    refine ⟨?_, ?_, ?_⟩
    · intro he
      rw [Scene.hit, he]
      rfl
    · exact Scene.hitLoop_none_iff ray I.start scene.list I.stop
    · intro hr hh
      obtain ⟨ho, -, hmin⟩ := Scene.hitLoop_min ray I.start I.stop scene.list
        I.stop none le_rfl (fun _ => rfl)
        (fun hb hb' => absurd hb' (by simp)) hr hh
      rcases ho with hb | hex
      · exact absurd hb (by simp)
      · exact ⟨hex, hmin⟩
  · have h1 : (⟨((0 : ℝ) : EReal), ⊤⟩ : Interval).surrounds 1 :=
      ⟨EReal.coe_lt_coe_iff.mpr (by norm_num), EReal.coe_lt_top 1⟩
    have e1 : Object.hit (.sphere (Sphere.new ⟨1.5, 0, 0⟩ 0.5 .Absorbant))
        (Ray.new ⟨0, 0, 0⟩ ⟨1, 0, 0⟩) ⟨((0 : ℝ) : EReal), ⊤⟩
        = some ((Sphere.new ⟨1.5, 0, 0⟩ 0.5 .Absorbant).mkHit
          (Ray.new ⟨0, 0, 0⟩ ⟨1, 0, 0⟩) 1) := by
      simp only [Object.hit]
      rw [sphereC3a_eval, if_pos h1]
    have e2 : Object.hit (.sphere (Sphere.new ⟨3.5, 0, 0⟩ 0.5 .Absorbant))
        (Ray.new ⟨0, 0, 0⟩ ⟨1, 0, 0⟩) ⟨((0 : ℝ) : EReal), ((1 : ℝ) : EReal)⟩
        = none := by
      simp only [Object.hit]
      rw [sphereC3b_eval]
      rw [if_neg ?_, if_neg ?_]
      · rintro ⟨-, hlt⟩
        exact absurd (EReal.coe_lt_coe_iff.mp hlt) (by norm_num)
      · rintro ⟨-, hlt⟩
        exact absurd (EReal.coe_lt_coe_iff.mp hlt) (by norm_num)
    have ht1 : ((Sphere.new ⟨1.5, 0, 0⟩ 0.5 .Absorbant).mkHit
        (Ray.new ⟨0, 0, 0⟩ ⟨1, 0, 0⟩) 1).t = 1 := rfl
    refine ⟨(Sphere.new ⟨1.5, 0, 0⟩ 0.5 .Absorbant).mkHit
      (Ray.new ⟨0, 0, 0⟩ ⟨1, 0, 0⟩) 1, ?_, rfl, ?_⟩
    · show Scene.hitLoop (Ray.new ⟨0, 0, 0⟩ ⟨1, 0, 0⟩) ((0 : ℝ) : EReal)
        [.sphere (Sphere.new ⟨1.5, 0, 0⟩ 0.5 .Absorbant),
         .sphere (Sphere.new ⟨3.5, 0, 0⟩ 0.5 .Absorbant)] ⊤ none = _
      simp only [Scene.hitLoop, e1]
      rw [ht1]
      simp only [Scene.hitLoop, e2]
    · show ((Sphere.new ⟨1.5, 0, 0⟩ 0.5 .Absorbant).mkHit
        (Ray.new ⟨0, 0, 0⟩ ⟨1, 0, 0⟩) 1).point = _
      norm_num [Sphere.mkHit, Ray.at, Ray.new, Vec3.scale]

/-- C3 witness: the two-sphere test instance, extracted from the theorem. -/
theorem C3_scene_nearest_hit_witness :
    ∃ hr, Scene.hit ⟨[.sphere (Sphere.new ⟨1.5, 0, 0⟩ 0.5 .Absorbant),
        .sphere (Sphere.new ⟨3.5, 0, 0⟩ 0.5 .Absorbant)]⟩
        (Ray.new ⟨0, 0, 0⟩ ⟨1, 0, 0⟩) (Interval.ofStart 0) = some hr ∧
      hr.t = 1 ∧ hr.point = ⟨1, 0, 0⟩ :=
  C3_scene_nearest_hit.2

/-- C8: a hit returned by `Scene::hit` comes from an object all of whose
predecessors in insertion order either miss or hit at a strictly larger
parameter: an object whose `t` merely equals the current best is never
selected, so among equal-`t` intersections the earliest object wins. -/
theorem C8_first_object_wins (scene : Scene) (ray : Ray) (I : Interval)
    (hr : Hit) (hh : scene.hit ray I = some hr) :
    ∃ pre o post, scene.list = pre ++ o :: post ∧
      o.hit ray I = some hr ∧
      ∀ o' ∈ pre, ∀ h', o'.hit ray I = some h' → hr.t < h'.t := by
  rcases Scene.hitLoop_first ray I.start I.stop scene.list I.stop none
      le_rfl hr hh with hb | ⟨-, pre, o, post, heq, hhit, hpre⟩
  · exact absurd hb (by simp)
  · exact ⟨pre, o, post, heq, hhit, hpre⟩

/-- Evaluation of `Sphere::hit` for a sphere at `(2,0,0)` with radius 1 (any
material) against the ray from the origin along `(1,0,0)`: roots 1 and 3. -/
theorem sphereC8_eval (m : Material) (I : Interval) :
    (Sphere.new ⟨2, 0, 0⟩ 1 m).hit (Ray.new ⟨0, 0, 0⟩ ⟨1, 0, 0⟩) I =
      if I.surrounds 1 then
        some ((Sphere.new ⟨2, 0, 0⟩ 1 m).mkHit (Ray.new ⟨0, 0, 0⟩ ⟨1, 0, 0⟩) 1)
      else if I.surrounds 3 then
        some ((Sphere.new ⟨2, 0, 0⟩ 1 m).mkHit (Ray.new ⟨0, 0, 0⟩ ⟨1, 0, 0⟩) 3)
      else none := by
  rw [Sphere.hit_formula _ _ I 1 2 3
    (by norm_num [Vec3.norm_sq, Ray.new])
    (by norm_num [Vec3.dot, Ray.new, Sphere.new])
    (by norm_num [Vec3.norm_sq, Ray.new, Sphere.new])]
  rw [show (2 * 2 - 1 * 3 : ℝ) = 1 by norm_num]
  rw [if_neg (by norm_num), Real.sqrt_one]
  norm_num

/-- C8 witness: two cospatial spheres intersect the ray at the same `t = 1`;
the scan resolves the hit of the first object, and the theorem locates it
with every predecessor (there are none) strictly farther. -/
theorem C8_first_object_wins_witness :
    ∃ pre o post,
      ([.sphere (Sphere.new ⟨2, 0, 0⟩ 1 .Absorbant),
        .sphere (Sphere.new ⟨2, 0, 0⟩ 1 (.Matte ⟨1, 0, 0⟩))] : List Object)
        = pre ++ o :: post ∧
      o.hit (Ray.new ⟨0, 0, 0⟩ ⟨1, 0, 0⟩) (Interval.ofStart 0)
        = some ((Sphere.new ⟨2, 0, 0⟩ 1 .Absorbant).mkHit
          (Ray.new ⟨0, 0, 0⟩ ⟨1, 0, 0⟩) 1) ∧
      ∀ o' ∈ pre, ∀ h',
        o'.hit (Ray.new ⟨0, 0, 0⟩ ⟨1, 0, 0⟩) (Interval.ofStart 0) = some h' →
        ((Sphere.new ⟨2, 0, 0⟩ 1 .Absorbant).mkHit
          (Ray.new ⟨0, 0, 0⟩ ⟨1, 0, 0⟩) 1).t < h'.t := by
  refine C8_first_object_wins
    ⟨[.sphere (Sphere.new ⟨2, 0, 0⟩ 1 .Absorbant),
      .sphere (Sphere.new ⟨2, 0, 0⟩ 1 (.Matte ⟨1, 0, 0⟩))]⟩
    (Ray.new ⟨0, 0, 0⟩ ⟨1, 0, 0⟩) (Interval.ofStart 0) _ ?_
  have h1 : (⟨((0 : ℝ) : EReal), ⊤⟩ : Interval).surrounds 1 :=
    ⟨EReal.coe_lt_coe_iff.mpr (by norm_num), EReal.coe_lt_top 1⟩
  have e1 : Object.hit (.sphere (Sphere.new ⟨2, 0, 0⟩ 1 .Absorbant))
      (Ray.new ⟨0, 0, 0⟩ ⟨1, 0, 0⟩) ⟨((0 : ℝ) : EReal), ⊤⟩
      = some ((Sphere.new ⟨2, 0, 0⟩ 1 .Absorbant).mkHit
        (Ray.new ⟨0, 0, 0⟩ ⟨1, 0, 0⟩) 1) := by
    simp only [Object.hit]
    rw [sphereC8_eval, if_pos h1]
  have e2 : Object.hit (.sphere (Sphere.new ⟨2, 0, 0⟩ 1 (.Matte ⟨1, 0, 0⟩)))
      (Ray.new ⟨0, 0, 0⟩ ⟨1, 0, 0⟩) ⟨((0 : ℝ) : EReal), ((1 : ℝ) : EReal)⟩
      = none := by
    simp only [Object.hit]
    rw [sphereC8_eval]
    rw [if_neg ?_, if_neg ?_]
    · rintro ⟨-, hlt⟩
      exact absurd (EReal.coe_lt_coe_iff.mp hlt) (by norm_num)
    · rintro ⟨-, hlt⟩
      exact absurd (EReal.coe_lt_coe_iff.mp hlt) (by norm_num)
  have ht1 : ((Sphere.new ⟨2, 0, 0⟩ 1 .Absorbant).mkHit
      (Ray.new ⟨0, 0, 0⟩ ⟨1, 0, 0⟩) 1).t = 1 := rfl
  show Scene.hitLoop (Ray.new ⟨0, 0, 0⟩ ⟨1, 0, 0⟩) ((0 : ℝ) : EReal)
    [.sphere (Sphere.new ⟨2, 0, 0⟩ 1 .Absorbant),
     .sphere (Sphere.new ⟨2, 0, 0⟩ 1 (.Matte ⟨1, 0, 0⟩))] ⊤ none = _
  simp only [Scene.hitLoop, e1]
  rw [ht1]
  simp only [Scene.hitLoop, e2]

/-- The incoming direction `(0.8,-0.6,0)` is a unit vector. -/
theorem unit_c1_dir : Vec3.unit ⟨0.8, -0.6, 0⟩ = ⟨0.8, -0.6, 0⟩ := by
  unfold Vec3.unit Vec3.norm Vec3.norm_sq Vec3.divs
  rw [show ((0.8 : ℝ) * 0.8 + (-0.6) * (-0.6) + 0 * 0) = 1 by norm_num,
    Real.sqrt_one]
  norm_num

/-- Evaluation of `refract_dir` at the C1 counterexample inputs. -/
theorem refract_c1_eval :
    refract_dir ⟨0.8, -0.6, 0⟩ ⟨0, 1, 0⟩ 1.5 = ⟨1.2, -Real.sqrt 0.44, 0⟩ := by
  simp only [refract_dir]
  rw [unit_c1_dir]
  rw [show Vec3.dot (-(⟨0.8, -0.6, 0⟩ : Vec3)) ⟨0, 1, 0⟩ = 0.6 by
    norm_num [Vec3.dot]]
  rw [show min (1 : ℝ) 0.6 = 0.6 by norm_num]
  rw [show ((⟨0.8, -0.6, 0⟩ : Vec3) + (⟨0, 1, 0⟩ : Vec3).scale 0.6).scale 1.5
    = ⟨1.2, 0, 0⟩ by norm_num [Vec3.scale]]
  rw [show |1 - Vec3.norm_sq ⟨1.2, 0, 0⟩| = 0.44 by
    norm_num [Vec3.norm_sq, abs_of_neg]]
  norm_num [Vec3.scale]

/-- C1: the dielectric scatter branch contradicts the spec.  At a back-face
hit with `ri·sinθ = 1.2 > 1` (refraction geometrically impossible) and a
uniform draw `0.01` below the Schlick reflectance `≈ 0.0498`, the claim
mandates the reflected direction `(0.8, 0.6, 0)`, but the code takes the
`refract_dir` branch and returns `(1.2, -√0.44, 0)`. -/
theorem C1_dielectric_branch_bug :
    (1.5 * Real.sqrt (1 - (0.6 : ℝ) * 0.6) > 1) ∧
    reflectance 0.6 1 1.5 > 0.01 ∧
    scatter_dielectric (Ray.new ⟨0, 0, 0⟩ ⟨0.8, -0.6, 0⟩)
      ⟨1, ⟨0.8, -0.6, 0⟩, ⟨0, 1, 0⟩, False, .Dielectric 1.5⟩ 1.5 0.01
      = some (Ray.new ⟨0.8, -0.6, 0⟩ ⟨1.2, -Real.sqrt 0.44, 0⟩) ∧
    (⟨1.2, -Real.sqrt 0.44, 0⟩ : Vec3)
      ≠ reflect_dir ⟨0.8, -0.6, 0⟩ ⟨0, 1, 0⟩ := by
  have hsin : Real.sqrt (1 - (0.6 : ℝ) * 0.6) = 0.8 := by
    rw [show (1 - (0.6 : ℝ) * 0.6) = 0.8 ^ 2 by norm_num,
      Real.sqrt_sq (by norm_num)]
  have hrefl : reflectance 0.6 1 1.5 > 0.01 := by
    unfold reflectance
    norm_num
  refine ⟨by rw [hsin]; norm_num, hrefl, ?_, ?_⟩
  · simp only [scatter_dielectric, Ray.new]
    rw [if_neg not_false]
    rw [unit_c1_dir]
    rw [show Vec3.dot (⟨0.8, -0.6, 0⟩ : Vec3) ⟨0, 1, 0⟩ = -0.6 by
      norm_num [Vec3.dot]]
    rw [show min (1 : ℝ) (- -0.6) = 0.6 by norm_num]
    rw [hsin]
    rw [if_pos (Or.inr hrefl)]
    rw [refract_c1_eval]
  · intro hcontra
    rw [show reflect_dir (⟨0.8, -0.6, 0⟩ : Vec3) ⟨0, 1, 0⟩ = ⟨0.8, 0.6, 0⟩ by
      norm_num [reflect_dir, Vec3.dot, Vec3.scale]] at hcontra
    have hx : (1.2 : ℝ) = 0.8 := congrArg Vec3.x hcontra
    norm_num at hx

/-- The saturating cast never exceeds 255. -/
theorem F64.toU8_le (v : F64) : v.toU8 ≤ 255 := by
  rcases v with _ | _ | _ | x
  · exact Nat.zero_le _
  · exact le_refl _
  · exact Nat.zero_le _
  · simp only [F64.toU8]
    split
    · exact Nat.zero_le _
    · exact min_le_left _ _

/-- The channel conversion of a nonnegative finite value follows the claim's
quantization formula `floor(256 * clamp(x^(1/gamma), 0, 0.999))`. -/
theorem calcChannel_fin_formula (x gamma : ℝ) (hx : 0 ≤ x) (hg : 0 < gamma) :
    calcChannel (.fin x) gamma
      = Int.toNat ⌊256 * max 0 (min 0.999 (x ^ (1 / gamma)))⌋ := by
  have hy : 0 < 1 / gamma := by positivity
  have hyne : (1 : ℝ) / gamma ≠ 0 := ne_of_gt hy
  have key : ∀ c : ℝ, 0 ≤ c → c ≤ 0.999 →
      F64.toU8 (.fin (256 * c)) = Int.toNat ⌊256 * c⌋ := by
    intro c hc0 hc1
    simp only [F64.toU8]
    rw [if_neg (not_lt.mpr (by positivity))]
    have hfl : ⌊256 * c⌋ ≤ 255 := by
      calc ⌊256 * c⌋ ≤ ⌊(255.744 : ℝ)⌋ := Int.floor_le_floor (by linarith)
        _ = 255 := by rw [Int.floor_eq_iff]; norm_num
    exact min_eq_right (Int.toNat_le.mpr hfl)
  simp only [calcChannel, F64.powf]
  rw [if_neg hyne]
  rcases eq_or_lt_of_le hx with h0 | hpos
  · rw [if_neg (by rw [← h0]; exact lt_irrefl 0), if_pos h0.symm, if_pos hy]
    simp only [F64.clamp, F64.mulPos]
    rw [← h0, Real.zero_rpow hyne]
    exact key _ (le_max_left _ _) (max_le (by norm_num) (min_le_left _ _))
  · rw [if_pos hpos]
    simp only [F64.clamp, F64.mulPos]
    exact key _ (le_max_left _ _) (max_le (by norm_num) (min_le_left _ _))

/-- The channel conversion of a black channel is the byte 0. -/
theorem calcChannel_zero : calcChannel (.fin 0) 2.2 = 0 := by
  rw [calcChannel_fin_formula 0 2.2 le_rfl (by norm_num)]
  rw [Real.zero_rpow (by norm_num)]
  rw [show max 0 (min 0.999 (0 : ℝ)) = 0 by norm_num]
  norm_num

/-- The channel conversion of a full channel at gamma 2.2 is the byte 255. -/
theorem calcChannel_one : calcChannel (.fin 1) 2.2 = 255 := by
  rw [calcChannel_fin_formula 1 2.2 zero_le_one (by norm_num)]
  rw [Real.one_rpow]
  rw [show max 0 (min 0.999 (1 : ℝ)) = 0.999 by norm_num]
  rw [show (256 : ℝ) * 0.999 = 255.744 by norm_num]
  rw [show ⌊(255.744 : ℝ)⌋ = 255 by rw [Int.floor_eq_iff]; norm_num]
  rfl

/-- Rust `calc_colors` of black at gamma 2.2. -/
theorem calc_colors_black : calc_colors Color.black 2.2 = (0, 0, 0) := by
  show (calcChannel (.fin 0) 2.2, calcChannel (.fin 0) 2.2,
    calcChannel (.fin 0) 2.2) = _
  rw [calcChannel_zero]

/-- Rust `calc_colors` of pure red at gamma 2.2. -/
theorem calc_colors_red : calc_colors ⟨1, 0, 0⟩ 2.2 = (255, 0, 0) := by
  show (calcChannel (.fin 1) 2.2, calcChannel (.fin 0) 2.2,
    calcChannel (.fin 0) 2.2) = _
  rw [calcChannel_zero, calcChannel_one]

/-- The 2×2 test image: three black pixels, bottom-right red. -/
theorem rows_demo :
    (Image.setPx (Image.init 2 2) 1 1 ⟨1, 0, 0⟩).rows
      = [[Color.black, Color.black], [Color.black, ⟨1, 0, 0⟩]] := rfl

/-- C5: each emitted byte is `floor(256 * clamp(x^(1/gamma), 0, 0.999))` for
a nonnegative finite channel, every byte is at most 255 (256 is never
produced), and the 2×2 three-black/one-red image at gamma 2.2 encodes to the
exact ASCII and binary streams. -/
theorem C5_ppm_encoding :
    (∀ x gamma : ℝ, 0 ≤ x → 0 < gamma →
      calcChannel (.fin x) gamma
        = Int.toNat ⌊256 * max 0 (min 0.999 (x ^ (1 / gamma)))⌋) ∧
    (∀ (v : F64) (gamma : ℝ), calcChannel v gamma ≤ 255) ∧
    plain (Image.setPx (Image.init 2 2) 1 1 ⟨1, 0, 0⟩) 2.2
      = "P3\n2 2\n255\n0 0 0\n0 0 0\n0 0 0\n255 0 0\n" ∧
    raw (Image.setPx (Image.init 2 2) 1 1 ⟨1, 0, 0⟩) 2.2
      = strBytes "P6\n2 2\n255\n"
        ++ [0, 0, 0, 0, 0, 0, 0, 0, 0, 255, 0, 0] := by
  refine ⟨calcChannel_fin_formula, fun _ _ => F64.toU8_le _, ?_, ?_⟩
  · rw [plain, rows_demo]
    simp only [List.map_cons, List.map_nil, calc_colors_black, calc_colors_red]
    rfl
  · rw [raw, rows_demo]
    simp only [List.map_cons, List.map_nil, calc_colors_black, calc_colors_red]
    rfl

/-- C5 witness: the quantization formula at the concrete full-red channel
with gamma 2.2. -/
theorem C5_ppm_encoding_witness :
    calcChannel (.fin 1) 2.2
      = Int.toNat ⌊256 * max 0 (min 0.999 ((1 : ℝ) ^ (1 / (2.2 : ℝ))))⌋ :=
  C5_ppm_encoding.1 1 2.2 (by norm_num) (by norm_num)

/-- The exponent `1/2.2` is not an odd integer (it lies strictly between 0 and 1). -/
theorem not_odd_int_inv_gamma : ¬ IsOddIntVal ((1 : ℝ) / 2.2) := by
  rintro ⟨n, -, hn⟩
  have h0 : (0 : ℝ) < (n : ℝ) := by rw [hn]; norm_num
  have h1 : ((n : ℝ)) < 1 := by rw [hn]; norm_num
  have h0' : (0 : ℤ) < n := by exact_mod_cast h0
  have h1' : n < 1 := by exact_mod_cast h1
  omega

/-- The NaN channel quantizes to byte 0. -/
theorem calcChannel_nan : calcChannel .nan 2.2 = 0 := by
  simp only [calcChannel, F64.powf]
  rw [if_neg (by norm_num : (1 : ℝ) / 2.2 ≠ 0)]
  rfl

/-- The `+∞` channel quantizes to byte 255. -/
theorem calcChannel_pinf : calcChannel .pinf 2.2 = 255 := by
  simp only [calcChannel, F64.powf]
  rw [if_neg (by norm_num : (1 : ℝ) / 2.2 ≠ 0),
    if_pos (by norm_num : (0 : ℝ) < 1 / 2.2)]
  simp only [F64.clamp, F64.mulPos, F64.toU8]
  rw [if_neg (by norm_num : ¬ (256 * (0.999 : ℝ) < 0))]
  rw [show (256 : ℝ) * 0.999 = 255.744 by norm_num]
  rw [show ⌊(255.744 : ℝ)⌋ = 255 by rw [Int.floor_eq_iff]; norm_num]
  rfl

/-- The `-∞` channel also quantizes to byte 255: the gamma exponentiation
maps `-∞` to `+∞` (IEEE `pow(-∞, y) = +∞` for positive non-odd-integer
`y`), which the clamp then sends to `0.999`. -/
theorem calcChannel_ninf : calcChannel .ninf 2.2 = 255 := by
  simp only [calcChannel, F64.powf]
  rw [if_neg (by norm_num : (1 : ℝ) / 2.2 ≠ 0),
    if_pos (by norm_num : (0 : ℝ) < 1 / 2.2),
    if_neg not_odd_int_inv_gamma]
  simp only [F64.clamp, F64.mulPos, F64.toU8]
  rw [if_neg (by norm_num : ¬ (256 * (0.999 : ℝ) < 0))]
  rw [show (256 : ℝ) * 0.999 = 255.744 by norm_num]
  rw [show ⌊(255.744 : ℝ)⌋ = 255 by rw [Int.floor_eq_iff]; norm_num]
  rfl

/-- C10 counterexample: the claim asserts a `-∞` channel quantizes to byte
0, but `calc_colors` produces 255 for it at gamma 2.2. -/
theorem C10_neg_inf_counterexample : calcChannel .ninf 2.2 ≠ 0 := by
  rw [calcChannel_ninf]
  norm_num

/-- C10 (amended): the channel conversion is total and always lands in
`[0,255]`; NaN quantizes to 0, while both `+∞` and `-∞` quantize to 255
(`powf` maps `-∞` to `+∞` for the positive non-integer exponent before the
clamp). -/
theorem C10_encoder_totality :
    calcChannel .nan 2.2 = 0 ∧
    calcChannel .pinf 2.2 = 255 ∧
    calcChannel .ninf 2.2 = 255 ∧
    ∀ (v : F64) (gamma : ℝ), calcChannel v gamma ≤ 255 :=
  ⟨calcChannel_nan, calcChannel_pinf, calcChannel_ninf,
    fun _ _ => F64.toU8_le _⟩

end Raytracer
